import Mathlib

/-!
Verification development for the `svcat provision` command of the
service-catalog repository (`cmd/svcat/instance/provision_cmd.go`).

The command struct, `Validate`, `Run` and `Provision` are embedded from the
source file.  The `parameters` package (`ParseVariableAssignments`,
`ParseVariableJSON`, `ParseKeyMaps`) and the `App` collaborator
(`App.Provision`, `App.WaitForInstance`) are not part of the source sample:
the spec treats them as external collaborators, so `Validate` and `Provision`
are parameterised over them wherever a claim quantifies over their behaviour,
and `ParseVariableAssignments` is additionally given a concrete model built
from the spec's description where a claim is about its own semantics.

Go mutation of the pointer receiver is modelled by explicit state passing:
each operation returns the updated `ProvisionCmd` record.  Writes to the
output stream and calls into the collaborators are modelled as explicit
event traces returned alongside the result, so that claims about "what was
written" and "what was invoked" are statable.
-/

set_option autoImplicit false

namespace SvcatProvision

/-- A JSON-compatible parameter value (`interface{}` in the Go source):
raw `NAME=VALUE` assignments produce `str` values, a JSON document may
produce any shape. -/
inductive PValue where
  | str : String → PValue
  | num : Int → PValue
  | bool : Bool → PValue
  | null : PValue
  | arr : List PValue → PValue
  | obj : List (String × PValue) → PValue

/-- A parameter set: ordered association list from parameter name to value
(the Go `map[string]interface{}`, with insertion order made explicit). -/
def ParamSet := List (String × PValue)

/-- A secret-reference set: association list from secret name to secret key
(the Go `map[string]string` returned by `ParseKeyMaps`). -/
def SecretSet := List (String × String)

/-- Lookup in an association list of parameters by key. -/
def lookupP : List (String × PValue) → String → Option PValue
  | [], _ => none
  | (k, v) :: rest, name => if k = name then some v else lookupP rest name

/-- The keys of an association list, in order. -/
def keysOf (m : List (String × PValue)) : List String :=
  m.map Prod.fst

/-- Insert with overwrite: if the key is present, replace its value in
place; otherwise append the binding at the end (Go map assignment
`variables[name] = value`, with iteration order fixed to insertion order). -/
def insertOverwrite : List (String × PValue) → String → PValue → List (String × PValue)
  | [], k, v => [(k, v)]
  | (k', v') :: rest, k, v =>
    if k' = k then (k, v) :: rest else (k', v') :: insertOverwrite rest k v

/-- Split a character list at the first `=`, returning the name part and the
value part; `none` when no `=` occurs. -/
def splitFirstEq : List Char → Option (List Char × List Char)
  | [] => none
  | c :: rest =>
    if c = '=' then some ([], rest)
    else
      match splitFirstEq rest with
      | none => none
      | some (n, v) => some (c :: n, v)

/-- Modelled from the spec: the `parameters` package is not in the source
sample.  Parse one `NAME=VALUE` token: split on the first `=`; fail
(MalformedAssignment) when no `=` is present or the name portion is empty. -/
def parseAssignment (tok : String) : Except String (String × String) :=
  match splitFirstEq tok.data with
  | none => .error ("invalid parameter (" ++ tok ++ "), must be in name=value format")
  | some ([], _) => .error ("invalid parameter (" ++ tok ++ "), must be in name=value format")
  | some (n, v) => .ok (String.mk n, String.mk v)

/-- A token is a well-formed `NAME=VALUE` assignment when it contains an `=`
and the name portion is non-empty. -/
def wellFormedAssignment (tok : String) : Bool :=
  match splitFirstEq tok.data with
  | none => false
  | some ([], _) => false
  | some (_ :: _, _) => true

/-- The name portion of a well-formed assignment token (empty string
fallback on malformed tokens). -/
def assignName (tok : String) : String :=
  match splitFirstEq tok.data with
  | none => ""
  | some (n, _) => String.mk n

/-- The value portion of a well-formed assignment token (empty string
fallback on malformed tokens). -/
def assignValue (tok : String) : String :=
  match splitFirstEq tok.data with
  | none => ""
  | some (_, v) => String.mk v

/-- Worker loop of `ParseVariableAssignments`: process tokens left to right,
accumulating bindings with overwrite-on-duplicate. -/
def pvaGo : List String → List (String × PValue) → Except String (List (String × PValue))
  | [], acc => .ok acc
  | tok :: rest, acc =>
    match parseAssignment tok with
    | .error e => .error e
    | .ok (n, v) => pvaGo rest (insertOverwrite acc n (.str v))

/-- Modelled from the spec: the `parameters` package is not in the source
sample.  `ParseVariableAssignments` parses `NAME=VALUE` tokens into a
parameter set; each value is taken as a plain string; duplicate names are
overwritten, last one wins, with no error. -/
def ParseVariableAssignments (tokens : List String) : Except String (List (String × PValue)) :=
  pvaGo tokens []

/-- Modelled from the spec: the `parameters` package is not in the source
sample.  Parse one `SECRET[KEY]` token: it must match `name[key]` exactly
with both parts non-empty and free of brackets; fail
(MalformedSecretReference) otherwise, echoing the offending token. -/
def parseKeyMap (tok : String) : Except String (String × String) :=
  let chars := tok.data
  let name := chars.takeWhile (fun c => c ≠ '[' ∧ c ≠ ']')
  let restAll := chars.drop name.length
  match restAll with
  | '[' :: rest =>
    let key := rest.takeWhile (fun c => c ≠ '[' ∧ c ≠ ']')
    if name ≠ [] ∧ key ≠ [] ∧ rest.drop key.length = [']'] then
      .ok (String.mk name, String.mk key)
    else
      .error ("invalid parameter (" ++ tok ++ "), must be in MAP[KEY] format")
  | _ => .error ("invalid parameter (" ++ tok ++ "), must be in MAP[KEY] format")

/-- Worker loop of `ParseKeyMaps`. -/
def pkmGo : List String → List (String × String) → Except String (List (String × String))
  | [], acc => .ok acc
  | tok :: rest, acc =>
    match parseKeyMap tok with
    | .error e => .error e
    | .ok (n, k) => pkmGo rest (acc ++ [(n, k)])

/-- Modelled from the spec: the `parameters` package is not in the source
sample.  `ParseKeyMaps` parses `SECRET[KEY]` tokens into a secret-reference
set. -/
def ParseKeyMaps (tokens : List String) : Except String (List (String × String)) :=
  pkmGo tokens []

/-- The `ProvisionCmd` struct of the source, with the embedded `Namespaced`
and `Waitable` structs flattened into their fields used by this command
(`Namespace`; `Wait`, `Interval`, `Timeout`).  `Params` is `interface{}` in
Go with zero value `nil`, modelled as `Option ParamSet`. -/
structure ProvisionCmd where
  InstanceName : String := ""
  ExternalID : String := ""
  ClassName : String := ""
  PlanName : String := ""
  RawParams : List String := []
  JsonParams : String := ""
  Params : Option (List (String × PValue)) := none
  RawSecrets : List String := []
  Secrets : List (String × String) := []
  Namespace : String := ""
  Wait : Bool := false
  Interval : Nat := 0
  Timeout : Nat := 0

/-- The errors `Validate` can return, one constructor per `fmt.Errorf` site
in the source; the wrapping constructors carry the wrapped parser error's
message. -/
inductive CmdError where
  | missingInstanceName
  | conflictingParamSources
  | invalidParamsJSON (e : String)
  | invalidParam (e : String)
  | invalidSecret (e : String)
  deriving DecidableEq

/-- The exact error string each `CmdError` renders to, matching the
`fmt.Errorf` format strings of the source. -/
def CmdError.message : CmdError → String
  | .missingInstanceName => "an instance name is required"
  | .conflictingParamSources => "--params-json cannot be used with --param"
  | .invalidParamsJSON e => "invalid --params-json value (" ++ e ++ ")"
  | .invalidParam e => "invalid --param value (" ++ e ++ ")"
  | .invalidSecret e => "invalid --secret value (" ++ e ++ ")"

/-- A record of one call into the `parameters` package, used to state which
parser `Validate` invoked and on what input. -/
inductive ParserCall where
  | jsonCall (doc : String)
  | assignCall (tokens : List String)
  | secretCall (tokens : List String)
  deriving DecidableEq

/-- Is this call an invocation of `ParseVariableJSON`? -/
def ParserCall.isJson : ParserCall → Bool
  | .jsonCall _ => true
  | _ => false

/-- Is this call an invocation of `ParseVariableAssignments`? -/
def ParserCall.isAssign : ParserCall → Bool
  | .assignCall _ => true
  | _ => false

/-- The tail of `Validate` from the source: parse the raw secrets with
`ParseKeyMaps`, wrap a failure as "invalid --secret value", otherwise store
the result in `c.Secrets` and return nil. -/
def validateSecrets (pk : List String → Except String SecretSet)
    (c : ProvisionCmd) (calls : List ParserCall) :
    ProvisionCmd × Option CmdError × List ParserCall :=
  match pk c.RawSecrets with
  | .error e => (c, some (.invalidSecret e), calls ++ [.secretCall c.RawSecrets])
  | .ok ss => ({ c with Secrets := ss }, none, calls ++ [.secretCall c.RawSecrets])

/-- `ProvisionCmd.Validate` from the source, parameterised over the three
parsers of the `parameters` package (`pj` = ParseVariableJSON, `pa` =
ParseVariableAssignments, `pk` = ParseKeyMaps), which are external to the
source sample.  Returns the mutated command state, the returned error (if
any), and the trace of parser invocations in order. -/
def validate (pj : String → Except String ParamSet)
    (pa : List String → Except String ParamSet)
    (pk : List String → Except String SecretSet)
    (c : ProvisionCmd) (args : List String) :
    ProvisionCmd × Option CmdError × List ParserCall :=
  match args with
  | [] => (c, some .missingInstanceName, [])
  | name :: _ =>
    let c := { c with InstanceName := name }
    if c.JsonParams ≠ "" ∧ c.RawParams.length > 0 then
      (c, some .conflictingParamSources, [])
    else if c.JsonParams ≠ "" then
      match pj c.JsonParams with
      | .error e => (c, some (.invalidParamsJSON e), [.jsonCall c.JsonParams])
      | .ok ps =>
        validateSecrets pk { c with Params := some ps } [.jsonCall c.JsonParams]
    else
      match pa c.RawParams with
      | .error e => (c, some (.invalidParam e), [.assignCall c.RawParams])
      | .ok ps =>
        validateSecrets pk { c with Params := some ps } [.assignCall c.RawParams]

/-- An instance snapshot as used by `Provision`: the source only reads
`instance.Namespace` and `instance.Name`; the rest of the Kubernetes object
is opaque payload, kept abstract as a tag so distinct snapshots stay
distinct. -/
structure InstanceSnapshot where
  Namespace : String
  Name : String
  tag : Nat := 0
  deriving DecidableEq

/-- The `servicecatalog.ProvisionOptions` struct built by `Provision`. -/
structure ProvisionOptions where
  ExternalID : String
  Namespace : String
  Params : Option (List (String × PValue))
  Secrets : List (String × String)

/-- One call into the external `App` collaborator. -/
inductive AppCall where
  | provisionCall (name className planName : String) (opts : ProvisionOptions)
  | waitCall (namespace_ name : String) (interval timeout : Nat)

/-- Is this call an invocation of `App.Provision`? -/
def AppCall.isProvision : AppCall → Bool
  | .provisionCall _ _ _ _ => true
  | _ => false

/-- One write to the command's output stream. -/
inductive OutputEvent where
  | waitingMsg
  | instanceDetails (i : InstanceSnapshot)

/-- The external `App` collaborator (interface only; out of scope of the
source sample): `Provision` and `WaitForInstance`, each returning a
snapshot or an error. -/
structure App where
  Provision : String → String → String → ProvisionOptions → Except String InstanceSnapshot
  WaitForInstance : String → String → Nat → Nat → Except String InstanceSnapshot

/-- The `ProvisionOptions` value `Provision` builds from the command state. -/
def optsOf (c : ProvisionCmd) : ProvisionOptions :=
  { ExternalID := c.ExternalID
    Namespace := c.Namespace
    Params := c.Params
    Secrets := c.Secrets }

/-- `ProvisionCmd.Provision` from the source, over an abstract `App`
collaborator.  Returns the output-write trace, the collaborator-call trace,
and the returned error (if any). -/
def provision (app : App) (c : ProvisionCmd) :
    List OutputEvent × List AppCall × Option String :=
  let opts := optsOf c
  let pcall := AppCall.provisionCall c.InstanceName c.ClassName c.PlanName opts
  match app.Provision c.InstanceName c.ClassName c.PlanName opts with
  | .error err => ([], [pcall], some err)
  | .ok inst =>
    if c.Wait then
      let wcall := AppCall.waitCall inst.Namespace inst.Name c.Interval c.Timeout
      match app.WaitForInstance inst.Namespace inst.Name c.Interval c.Timeout with
      | .ok finalInstance =>
        ([.waitingMsg, .instanceDetails finalInstance], [pcall, wcall], none)
      | .error err =>
        ([.waitingMsg, .instanceDetails inst], [pcall, wcall], some err)
    else
      ([.instanceDetails inst], [pcall], none)

/-- `ProvisionCmd.Run` from the source: it just calls `Provision`. -/
def run (app : App) (c : ProvisionCmd) :
    List OutputEvent × List AppCall × Option String :=
  provision app c

/-- Modelled from the spec: `ParseVariableJSON` decodes a JSON document into
a parameter set; the decoder lives in the `parameters` package, outside the
source sample, and every claim about `Validate` quantifies over it.  This
minimal instance is used only to evaluate concrete scenarios that do not
exercise the JSON-success path: it reports every document as invalid. -/
def rejectVariableJSON (doc : String) : Except String ParamSet :=
  .error ("invalid parameters (" ++ doc ++ ")")

def bananaCmd : ProvisionCmd :=
  { ClassName := "mysqldb", PlanName := "free", RawParams := ["a=b"] }

/-- The result of validating the end-to-end scenario command
(`provision bananainstance --class mysqldb --plan free -p a=b`). -/
def bananaValidate : ProvisionCmd × Option CmdError × List ParserCall :=
  validate rejectVariableJSON ParseVariableAssignments ParseKeyMaps bananaCmd
    ["bananainstance"]

/-- A collaborator whose Provision succeeds and whose WaitForInstance fails
with the poll-timeout error, modelling a successful provision followed by a
wait phase that times out. -/
def timeoutApp : App :=
  { Provision := fun _ _ _ _ => Except.ok { Namespace := "ns", Name := "mysql1234" }
    WaitForInstance := fun _ _ _ _ =>
      Except.error "timed out waiting for the condition" }

/-- A command state in wait mode. -/
def waitCmd : ProvisionCmd := { InstanceName := "bananainstance", Wait := true }

/-- A collaborator whose Provision always fails. -/
def failingApp : App :=
  { Provision := fun _ _ _ _ => Except.error "boom"
    WaitForInstance := fun _ _ _ _ =>
      Except.ok { Namespace := "ns", Name := "mysql1234" } }

/-- A collaborator for the end-to-end scenario: Provision succeeds. -/
def bananaApp : App :=
  { Provision := fun _ _ _ _ => Except.ok { Namespace := "", Name := "mysql1234" }
    WaitForInstance := fun _ _ _ _ =>
      Except.ok { Namespace := "", Name := "mysql1234" } }

/-- Left-biased choice on optional parameter values. -/
def orO : Option PValue → Option PValue → Option PValue
  | some v, _ => some v
  | none, o => o

/-- The (name, value) pair each token of a well-formed sequence parses to. -/
def assignPairs (tokens : List String) : List (String × PValue) :=
  tokens.map (fun t => (assignName t, PValue.str (assignValue t)))

/-- The value of the last occurrence of `nm` among the tokens, in input
order: the first match in the reversed pair list. -/
def lastLookup (tokens : List String) (nm : String) : Option PValue :=
  lookupP (assignPairs tokens).reverse nm

/-- C4: with a non-empty args list, a non-empty JSON-params string and at
least one raw param token, Validate returns the ConflictingParamSources
error, whose message is exactly the source's, and invokes no parser. -/
theorem validate_conflicting_sources
    (pj : String → Except String ParamSet)
    (pa : List String → Except String ParamSet)
    (pk : List String → Except String SecretSet)
    (c : ProvisionCmd) (args : List String)
    (h1 : args ≠ []) (h2 : c.JsonParams ≠ "") (h3 : c.RawParams ≠ []) :
    (validate pj pa pk c args).2.1 = some CmdError.conflictingParamSources ∧
    CmdError.message CmdError.conflictingParamSources =
      "--params-json cannot be used with --param" ∧
    (validate pj pa pk c args).2.2 = [] := by
  obtain ⟨a, rest, rfl⟩ := List.exists_cons_of_ne_nil h1
  have hlen : c.RawParams.length > 0 := List.length_pos.mpr h3
  simp [validate, h2, hlen, CmdError.message]

theorem validate_conflicting_sources_witness :
    (["x"] : List String) ≠ [] ∧
    ({ JsonParams := "notjson", RawParams := ["a=b"] } : ProvisionCmd).JsonParams ≠ "" ∧
    ({ JsonParams := "notjson", RawParams := ["a=b"] } : ProvisionCmd).RawParams ≠ [] ∧
    ((validate rejectVariableJSON ParseVariableAssignments ParseKeyMaps
        { JsonParams := "notjson", RawParams := ["a=b"] } ["x"]).2.1 =
      some CmdError.conflictingParamSources ∧
    CmdError.message CmdError.conflictingParamSources =
      "--params-json cannot be used with --param" ∧
    (validate rejectVariableJSON ParseVariableAssignments ParseKeyMaps
        { JsonParams := "notjson", RawParams := ["a=b"] } ["x"]).2.2 = []) :=
  ⟨by decide, by decide, by decide,
    validate_conflicting_sources rejectVariableJSON ParseVariableAssignments ParseKeyMaps
      { JsonParams := "notjson", RawParams := ["a=b"] } ["x"]
      (by decide) (by decide) (by decide)⟩

/-- After `Validate` on a non-empty args list, the command's `InstanceName`
field holds the first positional argument, in every branch of the
validation (success or any later error). -/
lemma validate_cons_instanceName
    (pj : String → Except String ParamSet)
    (pa : List String → Except String ParamSet)
    (pk : List String → Except String SecretSet)
    (c : ProvisionCmd) (a : String) (rest : List String) :
    (validate pj pa pk c (a :: rest)).1.InstanceName = a := by
  simp only [validate, validateSecrets]
  repeat' split
  all_goals simp

/-- On a non-empty args list, the error `Validate` returns (if any) is never
`missingInstanceName`. -/
lemma validate_cons_ne_missing
    (pj : String → Except String ParamSet)
    (pa : List String → Except String ParamSet)
    (pk : List String → Except String SecretSet)
    (c : ProvisionCmd) (a : String) (rest : List String) :
    (validate pj pa pk c (a :: rest)).2.1 ≠ some CmdError.missingInstanceName := by
  simp only [validate, validateSecrets]
  repeat' split
  all_goals simp

/-- C5: Validate fails with MissingInstanceName (message "an instance name
is required") exactly when the args list is empty; on a non-empty list it
sets InstanceName to the first argument and ignores the remaining
arguments entirely (the result coincides with validating just the first). -/
theorem validate_instance_name_rule
    (pj : String → Except String ParamSet)
    (pa : List String → Except String ParamSet)
    (pk : List String → Except String SecretSet)
    (c : ProvisionCmd) (args : List String) :
    ((validate pj pa pk c args).2.1 = some CmdError.missingInstanceName ↔ args = []) ∧
    CmdError.message CmdError.missingInstanceName = "an instance name is required" ∧
    (∀ a rest, args = a :: rest →
      (validate pj pa pk c args).1.InstanceName = a ∧
      validate pj pa pk c args = validate pj pa pk c [a]) := by
  refine ⟨⟨?_, ?_⟩, rfl, ?_⟩
  · intro h
    rcases args with _ | ⟨a, rest⟩
    · rfl
    · exact absurd h (validate_cons_ne_missing pj pa pk c a rest)
  · rintro rfl
    rfl
  · rintro a rest rfl
    exact ⟨validate_cons_instanceName pj pa pk c a rest, rfl⟩

theorem validate_instance_name_rule_witness :
    ((validate rejectVariableJSON ParseVariableAssignments ParseKeyMaps
        { ClassName := "mysqldb" } ["bananainstance", "extra"]).1.InstanceName =
      "bananainstance" ∧
    validate rejectVariableJSON ParseVariableAssignments ParseKeyMaps
        { ClassName := "mysqldb" } ["bananainstance", "extra"] =
      validate rejectVariableJSON ParseVariableAssignments ParseKeyMaps
        { ClassName := "mysqldb" } ["bananainstance"]) :=
  (validate_instance_name_rule rejectVariableJSON ParseVariableAssignments ParseKeyMaps
    { ClassName := "mysqldb" } ["bananainstance", "extra"]).2.2
    "bananainstance" ["extra"] rfl

/-- C10: Validate assigns `InstanceName := args[0]` before any other check,
so the field holds the first positional argument in every outcome,
including the runs that end in an error (conflicting sources or a parser
failure); a failed validation still mutates the command state. -/
theorem validate_mutates_instance_name
    (pj : String → Except String ParamSet)
    (pa : List String → Except String ParamSet)
    (pk : List String → Except String SecretSet)
    (c : ProvisionCmd) (a : String) (rest : List String) :
    (validate pj pa pk c (a :: rest)).1.InstanceName = a :=
  validate_cons_instanceName pj pa pk c a rest

/-- C6: past the mutual-exclusion check, Validate invokes exactly one of the
two parameter parsers: the JSON parser on the JSON string exactly when that
string is non-empty, and otherwise the raw-assignments parser on the raw
tokens (also when there are none); never both.  On an empty token list the
modelled `ParseVariableAssignments` yields the empty parameter set. -/
theorem validate_single_param_source
    (pj : String → Except String ParamSet)
    (pa : List String → Except String ParamSet)
    (pk : List String → Except String SecretSet)
    (c : ProvisionCmd) (args : List String)
    (h1 : args ≠ []) (h2 : ¬(c.JsonParams ≠ "" ∧ 0 < c.RawParams.length)) :
    (((validate pj pa pk c args).2.2.filter ParserCall.isJson).length +
      ((validate pj pa pk c args).2.2.filter ParserCall.isAssign).length = 1) ∧
    (c.JsonParams ≠ "" →
      (validate pj pa pk c args).2.2.filter ParserCall.isJson =
        [ParserCall.jsonCall c.JsonParams] ∧
      (validate pj pa pk c args).2.2.filter ParserCall.isAssign = []) ∧
    (c.JsonParams = "" →
      (validate pj pa pk c args).2.2.filter ParserCall.isAssign =
        [ParserCall.assignCall c.RawParams] ∧
      (validate pj pa pk c args).2.2.filter ParserCall.isJson = []) ∧
    ParseVariableAssignments [] = Except.ok [] := by
  obtain ⟨a, rest, rfl⟩ := List.exists_cons_of_ne_nil h1
  simp only [validate, validateSecrets]
  rw [if_neg h2]
  by_cases hj : c.JsonParams = ""
  · rw [if_neg (fun h => h hj)]
    cases hpa : pa c.RawParams with
    | error e => simp [ParserCall.isJson, ParserCall.isAssign, ParseVariableAssignments, pvaGo, hj]
    | ok ps =>
      cases hpk : pk c.RawSecrets with
      | error e =>
        simp [ParserCall.isJson, ParserCall.isAssign, ParseVariableAssignments, pvaGo, hj]
      | ok ss =>
        simp [ParserCall.isJson, ParserCall.isAssign, ParseVariableAssignments, pvaGo, hj]
  · rw [if_pos hj]
    cases hpj : pj c.JsonParams with
    | error e => simp [ParserCall.isJson, ParserCall.isAssign, ParseVariableAssignments, pvaGo, hj]
    | ok ps =>
      cases hpk : pk c.RawSecrets with
      | error e =>
        simp [ParserCall.isJson, ParserCall.isAssign, ParseVariableAssignments, pvaGo, hj]
      | ok ss =>
        simp [ParserCall.isJson, ParserCall.isAssign, ParseVariableAssignments, pvaGo, hj]

theorem validate_single_param_source_witness :
    ((bananaValidate.2.2.filter ParserCall.isJson).length +
      (bananaValidate.2.2.filter ParserCall.isAssign).length = 1) ∧
    (bananaCmd.JsonParams = "" →
      bananaValidate.2.2.filter ParserCall.isAssign =
        [ParserCall.assignCall bananaCmd.RawParams]) := by
  have h := validate_single_param_source rejectVariableJSON ParseVariableAssignments
    ParseKeyMaps bananaCmd ["bananainstance"] (by decide) (by decide)
  exact ⟨h.1, fun hj => (h.2.2.1 hj).1⟩

/-- C7: Validate wraps each parser failure with the matching context
prefix, and returns nil only when every parser it invoked succeeded. -/
theorem validate_error_wrapping
    (pj : String → Except String ParamSet)
    (pa : List String → Except String ParamSet)
    (pk : List String → Except String SecretSet)
    (c : ProvisionCmd) (args : List String)
    (h1 : args ≠ []) (h2 : ¬(c.JsonParams ≠ "" ∧ 0 < c.RawParams.length)) :
    (∀ e, c.JsonParams ≠ "" → pj c.JsonParams = Except.error e →
      (validate pj pa pk c args).2.1 = some (CmdError.invalidParamsJSON e) ∧
      (CmdError.invalidParamsJSON e).message =
        "invalid --params-json value (" ++ e ++ ")") ∧
    (∀ e, c.JsonParams = "" → pa c.RawParams = Except.error e →
      (validate pj pa pk c args).2.1 = some (CmdError.invalidParam e) ∧
      (CmdError.invalidParam e).message = "invalid --param value (" ++ e ++ ")") ∧
    (∀ e ps, c.JsonParams ≠ "" → pj c.JsonParams = Except.ok ps →
      pk c.RawSecrets = Except.error e →
      (validate pj pa pk c args).2.1 = some (CmdError.invalidSecret e) ∧
      (CmdError.invalidSecret e).message = "invalid --secret value (" ++ e ++ ")") ∧
    (∀ e ps, c.JsonParams = "" → pa c.RawParams = Except.ok ps →
      pk c.RawSecrets = Except.error e →
      (validate pj pa pk c args).2.1 = some (CmdError.invalidSecret e)) ∧
    ((validate pj pa pk c args).2.1 = none →
      (∃ ss, pk c.RawSecrets = Except.ok ss) ∧
      (c.JsonParams ≠ "" → ∃ ps, pj c.JsonParams = Except.ok ps) ∧
      (c.JsonParams = "" → ∃ ps, pa c.RawParams = Except.ok ps)) := by
  obtain ⟨a, rest, rfl⟩ := List.exists_cons_of_ne_nil h1
  simp only [validate, validateSecrets]
  rw [if_neg h2]
  refine ⟨?_, ?_, ?_, ?_, ?_⟩
  · intro e hj hpj
    rw [if_pos hj, hpj]
    exact ⟨rfl, rfl⟩
  · intro e hj hpa
    rw [if_neg (fun h => h hj), hpa]
    exact ⟨rfl, rfl⟩
  · intro e ps hj hpj hpk
    rw [if_pos hj, hpj]
    simp [hpk, CmdError.message]
  · intro e ps hj hpa hpk
    rw [if_neg (fun h => h hj), hpa]
    simp only [hpk]
  · by_cases hj : c.JsonParams = ""
    · rw [if_neg (fun h => h hj)]
      cases hpa : pa c.RawParams with
      | error e => simp
      | ok ps =>
        cases hpk : pk c.RawSecrets with
        | error e => simp [hpk]
        | ok ss =>
          intro _
          exact ⟨⟨ss, rfl⟩, fun h => absurd hj h, fun _ => ⟨ps, rfl⟩⟩
    · rw [if_pos hj]
      cases hpj : pj c.JsonParams with
      | error e => simp
      | ok ps =>
        cases hpk : pk c.RawSecrets with
        | error e => simp [hpk]
        | ok ss =>
          intro _
          exact ⟨⟨ss, rfl⟩, fun _ => ⟨ps, rfl⟩, fun h => absurd h hj⟩

theorem validate_error_wrapping_witness :
    (validate rejectVariableJSON ParseVariableAssignments ParseKeyMaps
        { RawParams := ["noequals"] } ["x"]).2.1 =
      some (CmdError.invalidParam
        "invalid parameter (noequals), must be in name=value format") :=
  ((validate_error_wrapping rejectVariableJSON ParseVariableAssignments ParseKeyMaps
      { RawParams := ["noequals"] } ["x"] (by decide) (by decide)).2.1
    "invalid parameter (noequals), must be in name=value format" rfl rfl).1

/-- C1: in wait mode, once the external Provision call succeeds, the command
invokes WaitForInstance on the provisioned instance, writes instance
details to the output whatever WaitForInstance returns — the final snapshot
on success, the Provision snapshot otherwise — and returns WaitForInstance's
error (if any) as its result. -/
theorem provision_wait_reports_and_returns
    (app : App) (c : ProvisionCmd) (inst : InstanceSnapshot)
    (hw : c.Wait = true)
    (hp : app.Provision c.InstanceName c.ClassName c.PlanName (optsOf c) =
      Except.ok inst) :
    (AppCall.waitCall inst.Namespace inst.Name c.Interval c.Timeout ∈
      (provision app c).2.1) ∧
    (∀ fi, app.WaitForInstance inst.Namespace inst.Name c.Interval c.Timeout =
        Except.ok fi →
      (provision app c).1 = [OutputEvent.waitingMsg, OutputEvent.instanceDetails fi] ∧
      (provision app c).2.2 = none) ∧
    (∀ e, app.WaitForInstance inst.Namespace inst.Name c.Interval c.Timeout =
        Except.error e →
      (provision app c).1 = [OutputEvent.waitingMsg, OutputEvent.instanceDetails inst] ∧
      (provision app c).2.2 = some e) := by
  simp only [provision, hp, hw, if_true]
  refine ⟨?_, ?_, ?_⟩
  · cases hwfi : app.WaitForInstance inst.Namespace inst.Name c.Interval c.Timeout with
    | ok fi => simp
    | error e => simp
  · intro fi hwfi
    rw [hwfi]
    exact ⟨rfl, rfl⟩
  · intro e hwfi
    rw [hwfi]
    exact ⟨rfl, rfl⟩

theorem provision_wait_reports_and_returns_witness :
    ((provision timeoutApp waitCmd).1 =
      [OutputEvent.waitingMsg,
        OutputEvent.instanceDetails { Namespace := "ns", Name := "mysql1234" }] ∧
    (provision timeoutApp waitCmd).2.2 =
      some "timed out waiting for the condition") :=
  (provision_wait_reports_and_returns timeoutApp waitCmd
      { Namespace := "ns", Name := "mysql1234" } rfl rfl).2.2
    "timed out waiting for the condition" rfl

/-- C2 as claimed is false: when provisioning succeeds and the wait phase
times out (WaitForInstance reports the timeout as an error), the command
does not return a nil error — at this concrete input it returns the
timeout error. -/
theorem provision_timeout_not_nil_counterexample :
    ¬((provision timeoutApp waitCmd).2.2 = none) := by
  simp [provision, timeoutApp, waitCmd, optsOf]

/-- C2 amended: when provisioning succeeds but the wait phase fails or
times out (WaitForInstance returns an error), the command returns that
error — a non-nil result, hence a non-zero exit status — while still
writing the provisioned instance's details to the output. -/
theorem provision_timeout_returns_error
    (app : App) (c : ProvisionCmd) (inst : InstanceSnapshot) (e : String)
    (hw : c.Wait = true)
    (hp : app.Provision c.InstanceName c.ClassName c.PlanName (optsOf c) =
      Except.ok inst)
    (hwfi : app.WaitForInstance inst.Namespace inst.Name c.Interval c.Timeout =
      Except.error e) :
    (provision app c).2.2 = some e ∧
    (provision app c).1 = [OutputEvent.waitingMsg, OutputEvent.instanceDetails inst] := by
  simp [provision, hp, hw, hwfi]

theorem provision_timeout_returns_error_witness :
    ((provision timeoutApp waitCmd).2.2 = some "timed out waiting for the condition" ∧
    (provision timeoutApp waitCmd).1 =
      [OutputEvent.waitingMsg,
        OutputEvent.instanceDetails { Namespace := "ns", Name := "mysql1234" }]) :=
  provision_timeout_returns_error timeoutApp waitCmd
    { Namespace := "ns", Name := "mysql1234" } "timed out waiting for the condition"
    rfl rfl rfl

/-- C3: when the external Provision call fails, the command returns that
error at once: WaitForInstance is not called (the call trace holds only the
Provision call) and nothing is written to the output, wait mode or not. -/
theorem provision_error_aborts
    (app : App) (c : ProvisionCmd) (e : String)
    (hp : app.Provision c.InstanceName c.ClassName c.PlanName (optsOf c) =
      Except.error e) :
    provision app c =
      ([], [AppCall.provisionCall c.InstanceName c.ClassName c.PlanName (optsOf c)],
        some e) := by
  simp only [provision, hp]

theorem provision_error_aborts_witness :
    provision failingApp waitCmd =
      ([], [AppCall.provisionCall waitCmd.InstanceName waitCmd.ClassName
        waitCmd.PlanName (optsOf waitCmd)], some "boom") :=
  provision_error_aborts failingApp waitCmd "boom" rfl

/-- C8: every execution makes exactly one Provision call on the
collaborator, as the first call, carrying the instance, class and plan
names and an options value holding exactly the external ID, namespace,
parsed params and parsed secrets; in the bananainstance end-to-end scenario
the single call carries params a=b and empty secrets. -/
theorem provision_calls_provision_once :
    (∀ (app : App) (c : ProvisionCmd),
      ((provision app c).2.1.filter AppCall.isProvision).length = 1 ∧
      (provision app c).2.1.head? =
        some (AppCall.provisionCall c.InstanceName c.ClassName c.PlanName (optsOf c)) ∧
      optsOf c =
        { ExternalID := c.ExternalID
          Namespace := c.Namespace
          Params := c.Params
          Secrets := c.Secrets }) ∧
    (bananaValidate.2.1 = none ∧
      (provision bananaApp bananaValidate.1).2.1 =
        [AppCall.provisionCall "bananainstance" "mysqldb" "free"
          { ExternalID := "", Namespace := "",
            Params := some [("a", PValue.str "b")], Secrets := [] }] ∧
      (provision bananaApp bananaValidate.1).2.2 = none) := by
  constructor
  · intro app c
    refine ⟨?_, ?_, rfl⟩
    · simp only [provision]
      cases hp : app.Provision c.InstanceName c.ClassName c.PlanName (optsOf c) with
      | error e => simp [AppCall.isProvision]
      | ok inst =>
        by_cases hw : c.Wait
        · cases hwfi : app.WaitForInstance inst.Namespace inst.Name c.Interval c.Timeout with
          | ok fi => simp [hw, hwfi, AppCall.isProvision]
          | error e => simp [hw, hwfi, AppCall.isProvision]
        · simp [hw, AppCall.isProvision]
    · simp only [provision]
      cases hp : app.Provision c.InstanceName c.ClassName c.PlanName (optsOf c) with
      | error e => simp
      | ok inst =>
        by_cases hw : c.Wait
        · cases hwfi : app.WaitForInstance inst.Namespace inst.Name c.Interval c.Timeout with
          | ok fi => simp [hw, hwfi]
          | error e => simp [hw, hwfi]
        · simp [hw]
  · exact ⟨rfl, rfl, rfl⟩

lemma orO_none_right (a : Option PValue) : orO a none = a := by
  cases a <;> rfl

lemma orO_assoc (a b c : Option PValue) :
    orO (orO a b) c = orO a (orO b c) := by
  cases a <;> rfl

lemma lookupP_append (A B : List (String × PValue)) (nm : String) :
    lookupP (A ++ B) nm = orO (lookupP A nm) (lookupP B nm) := by
  induction A with
  | nil => rfl
  | cons p rest ih =>
    obtain ⟨k, v⟩ := p
    by_cases hk : k = nm
    · simp [lookupP, hk, orO]
    · simp [lookupP, hk, ih]

lemma lookupP_insertOverwrite (m : List (String × PValue)) (k : String)
    (v : PValue) (nm : String) :
    lookupP (insertOverwrite m k v) nm = if k = nm then some v else lookupP m nm := by
  induction m with
  | nil => rfl
  | cons p rest ih =>
    obtain ⟨k1, v1⟩ := p
    by_cases h1 : k1 = k
    · subst h1
      by_cases h2 : k1 = nm
      · simp [insertOverwrite, lookupP, h2]
      · simp [insertOverwrite, lookupP, h2]
    · by_cases h2 : k1 = nm
      · subst h2
        have hk : ¬k = k1 := fun h => h1 h.symm
        simp [insertOverwrite, lookupP, h1, hk]
      · simp [insertOverwrite, lookupP, h1, h2, ih]

lemma mem_keysOf_insertOverwrite (m : List (String × PValue)) (k : String)
    (v : PValue) (nm : String) :
    nm ∈ keysOf (insertOverwrite m k v) ↔ nm ∈ keysOf m ∨ nm = k := by
  induction m with
  | nil => simp [insertOverwrite, keysOf]
  | cons p rest ih =>
    obtain ⟨k1, v1⟩ := p
    by_cases h1 : k1 = k
    · subst h1
      simp [insertOverwrite, keysOf]
      tauto
    · simp only [insertOverwrite, if_neg h1, keysOf, List.map_cons, List.mem_cons]
      rw [show keysOf (insertOverwrite rest k v) =
        (insertOverwrite rest k v).map Prod.fst from rfl] at ih
      rw [show keysOf rest = rest.map Prod.fst from rfl] at ih
      tauto

lemma nodup_keysOf_insertOverwrite (m : List (String × PValue)) (k : String)
    (v : PValue) (h : (keysOf m).Nodup) :
    (keysOf (insertOverwrite m k v)).Nodup := by
  induction m with
  | nil => simp [insertOverwrite, keysOf]
  | cons p rest ih =>
    obtain ⟨k1, v1⟩ := p
    simp only [keysOf, List.map_cons, List.nodup_cons] at h
    by_cases h1 : k1 = k
    · subst h1
      simpa [insertOverwrite, keysOf, List.nodup_cons] using h
    · simp only [insertOverwrite, if_neg h1, keysOf, List.map_cons, List.nodup_cons]
      refine ⟨?_, ih h.2⟩
      intro hmem
      rcases (mem_keysOf_insertOverwrite rest k v k1).mp hmem with hin | heq
      · exact h.1 hin
      · exact h1 heq

lemma lookupP_eq_none_iff (m : List (String × PValue)) (nm : String) :
    lookupP m nm = none ↔ nm ∉ keysOf m := by
  induction m with
  | nil => simp [lookupP, keysOf]
  | cons p rest ih =>
    obtain ⟨k, v⟩ := p
    simp only [keysOf, List.map_cons, List.mem_cons]
    by_cases hk : k = nm
    · subst hk
      simp [lookupP]
    · simp only [lookupP, if_neg hk]
      rw [ih]
      constructor
      · intro hnot hor
        rcases hor with heq | hmem
        · exact hk heq.symm
        · exact hnot hmem
      · intro hnot hmem
        exact hnot (Or.inr hmem)

lemma parseAssignment_of_wf (tok : String) (h : wellFormedAssignment tok = true) :
    parseAssignment tok = Except.ok (assignName tok, assignValue tok) := by
  simp only [wellFormedAssignment] at h
  simp only [parseAssignment, assignName, assignValue]
  cases hs : splitFirstEq tok.data with
  | none => simp [hs] at h
  | some p =>
    obtain ⟨n, v⟩ := p
    cases n with
    | nil => simp [hs] at h
    | cons c cs => simp [hs]

lemma pvaGo_wf (tokens : List String) :
    ∀ acc : List (String × PValue),
      (∀ t ∈ tokens, wellFormedAssignment t = true) →
      ∃ m, pvaGo tokens acc = Except.ok m ∧
        ((keysOf acc).Nodup → (keysOf m).Nodup) ∧
        ∀ nm, lookupP m nm = orO (lastLookup tokens nm) (lookupP acc nm) := by
  induction tokens with
  | nil =>
    intro acc _
    exact ⟨acc, rfl, fun h => h, fun nm => rfl⟩
  | cons t rest ih =>
    intro acc h
    have ht := parseAssignment_of_wf t (h t (List.mem_cons_self t rest))
    have hrest : ∀ u ∈ rest, wellFormedAssignment u = true :=
      fun u hu => h u (List.mem_cons_of_mem t hu)
    obtain ⟨m, hm, hnd, hlk⟩ :=
      ih (insertOverwrite acc (assignName t) (PValue.str (assignValue t))) hrest
    refine ⟨m, ?_, ?_, ?_⟩
    · simp only [pvaGo, ht]
      exact hm
    · intro hacc
      exact hnd (nodup_keysOf_insertOverwrite acc _ _ hacc)
    · intro nm
      rw [hlk nm]
      have h1 : lastLookup (t :: rest) nm =
          orO (lastLookup rest nm)
            (if assignName t = nm then some (PValue.str (assignValue t)) else none) := by
        simp only [lastLookup, assignPairs, List.map_cons, List.reverse_cons]
        rw [lookupP_append]
        rfl
      rw [h1, orO_assoc, lookupP_insertOverwrite]
      congr 1
      by_cases hnm : assignName t = nm
      · simp [hnm, orO]
      · simp [hnm, orO]

/-- C9: on a token sequence of well-formed NAME=VALUE assignments,
`ParseVariableAssignments` succeeds (no duplicate-name error) with a map
holding exactly one entry per distinct NAME, a NAME occurring several times
being bound to the value of its last occurrence in input order. -/
theorem parse_variable_assignments_last_wins (tokens : List String)
    (h : ∀ t ∈ tokens, wellFormedAssignment t = true) :
    ∃ m, ParseVariableAssignments tokens = Except.ok m ∧
      (keysOf m).Nodup ∧
      (∀ nm, lookupP m nm = lastLookup tokens nm) ∧
      (∀ nm, nm ∈ keysOf m ↔ lastLookup tokens nm ≠ none) := by
  obtain ⟨m, hm, hnd, hlk⟩ := pvaGo_wf tokens [] h
  have hlk2 : ∀ nm, lookupP m nm = lastLookup tokens nm := by
    intro nm
    rw [hlk nm]
    simpa [lookupP] using orO_none_right (lastLookup tokens nm)
  refine ⟨m, hm, hnd (by simp [keysOf]), hlk2, ?_⟩
  intro nm
  rw [← hlk2 nm]
  constructor
  · intro hmem hnone
    exact (lookupP_eq_none_iff m nm).mp hnone hmem
  · intro hne
    by_contra hmem
    exact hne ((lookupP_eq_none_iff m nm).mpr hmem)

theorem parse_variable_assignments_last_wins_witness :
    (∀ t ∈ (["a=b", "a=c", "x=1", "a=d"] : List String),
      wellFormedAssignment t = true) ∧
    ∃ m, ParseVariableAssignments ["a=b", "a=c", "x=1", "a=d"] = Except.ok m ∧
      (keysOf m).Nodup ∧
      (∀ nm, lookupP m nm = lastLookup ["a=b", "a=c", "x=1", "a=d"] nm) ∧
      (∀ nm, nm ∈ keysOf m ↔ lastLookup ["a=b", "a=c", "x=1", "a=d"] nm ≠ none) :=
  ⟨by decide,
    parse_variable_assignments_last_wins ["a=b", "a=c", "x=1", "a=d"] (by decide)⟩

end SvcatProvision
